import Mathlib

/-
  Verification of the monkycord persistence core (src/config.py, src/wrapper.py).

  The embedding models Python's mutable dictionaries explicitly: a heap maps
  addresses to insertion-ordered association lists, and a JSON value stored in a
  dictionary is either a scalar or a reference to another heap dictionary.  This
  is needed because several specified properties concern object identity and
  aliasing between a Document's opts mapping, its SubDocument views, and the
  template dictionaries shared by a DocumentStore.  Files, the clock used for
  modification-time checks, and the heap are threaded through every operation;
  fallible Python code (KeyError, TypeError, the ConfigException raised by the
  check-date guard) is modelled with Except.
-/

/-! ## Association lists (Python dict semantics: insertion order, unique keys) -/

def alLookup {α : Type} : List (String × α) → String → Option α
  | [], _ => none
  | (k, v) :: rest, key => if k = key then some v else alLookup rest key

def alMem {α : Type} (d : List (String × α)) (key : String) : Bool :=
  (alLookup d key).isSome

/-- Assignment d[key] = v: replace the first binding in place, else append. -/
def alSet {α : Type} : List (String × α) → String → α → List (String × α)
  | [], key, v => [(key, v)]
  | (k, w) :: rest, key, v =>
      if k = key then (k, v) :: rest else (k, w) :: alSet rest key v

/-- Deletion del d[key]: remove the first binding for key. -/
def alDel {α : Type} : List (String × α) → String → List (String × α)
  | [], _ => []
  | (k, w) :: rest, key => if k = key then rest else (k, w) :: alDel rest key

theorem alLookup_alSet_self {α : Type} (d : List (String × α)) (k : String) (v : α) :
    alLookup (alSet d k v) k = some v := by
  induction d with
  | nil => simp [alSet, alLookup]
  | cons hd tl ih =>
      obtain ⟨k', w⟩ := hd
      by_cases h : k' = k <;> simp [alSet, alLookup, h, ih]

theorem alLookup_alSet_ne {α : Type} (d : List (String × α)) (k k' : String) (v : α)
    (h : k' ≠ k) : alLookup (alSet d k v) k' = alLookup d k' := by
  have hne : k ≠ k' := Ne.symm h
  induction d with
  | nil => simp [alSet, alLookup, hne]
  | cons hd tl ih =>
      obtain ⟨k0, w⟩ := hd
      by_cases h0 : k0 = k
      · subst h0
        simp [alSet, alLookup, hne]
      · simp [alSet, alLookup, h0, ih]

theorem alMem_alSet {α : Type} (d : List (String × α)) (k k' : String) (v : α)
    (h : alMem d k' = true) : alMem (alSet d k v) k' = true := by
  by_cases hk : k' = k
  · subst hk; simp [alMem, alLookup_alSet_self]
  · simpa [alMem, alLookup_alSet_ne d k k' v hk] using h

theorem alSet_lookup_eq_self {α : Type} (d : List (String × α)) (k : String) (v : α)
    (h : alLookup d k = some v) : alSet d k v = d := by
  induction d with
  | nil => simp [alLookup] at h
  | cons hd tl ih =>
      obtain ⟨k0, w⟩ := hd
      by_cases h0 : k0 = k
      · subst h0
        simp [alLookup] at h
        simp [alSet, h]
      · simp [alLookup, h0] at h
        simp [alSet, h0, ih h]

/-! ## Runtime JSON values, trees and the heap of dictionary objects -/

/-- A value held in a Python dict: a scalar, or a reference to a dict object. -/
inductive JVal where
  | jstr : String → JVal
  | jnum : Int → JVal
  | jref : Nat → JVal
deriving DecidableEq, Repr

/-- Pure JSON trees, as serialized to and parsed from a file. -/
inductive JTree where
  | tstr : String → JTree
  | tnum : Int → JTree
  | tobj : List (String × JTree) → JTree

abbrev Dict := List (String × JVal)

abbrev Heap := List Dict

def heapGet : Heap → Nat → Dict
  | [], _ => []
  | d :: _, 0 => d
  | _ :: rest, a + 1 => heapGet rest a

def heapSet : Heap → Nat → Dict → Heap
  | [], _, _ => []
  | _ :: rest, 0, d => d :: rest
  | x :: rest, a + 1, d => x :: heapSet rest a d

/-- Allocate a fresh dict object; Python object creation. -/
def heapAlloc (h : Heap) (d : Dict) : Heap × Nat :=
  (h ++ [d], h.length)

theorem heapSet_length (h : Heap) (a : Nat) (d : Dict) :
    (heapSet h a d).length = h.length := by
  induction h generalizing a with
  | nil => simp [heapSet]
  | cons x rest ih =>
      cases a with
      | zero => simp [heapSet]
      | succ a => simp [heapSet, ih]

theorem heapGet_heapSet_self (h : Heap) (a : Nat) (d : Dict) (ha : a < h.length) :
    heapGet (heapSet h a d) a = d := by
  induction h generalizing a with
  | nil => simp at ha
  | cons x rest ih =>
      cases a with
      | zero => simp [heapSet, heapGet]
      | succ a =>
          simp only [List.length_cons, Nat.succ_lt_succ_iff] at ha
          simp [heapSet, heapGet, ih a ha]

theorem heapGet_heapSet_ne (h : Heap) (a a' : Nat) (d : Dict) (ha : a' ≠ a) :
    heapGet (heapSet h a d) a' = heapGet h a' := by
  induction h generalizing a a' with
  | nil => simp [heapSet]
  | cons x rest ih =>
      cases a with
      | zero =>
          cases a' with
          | zero => exact absurd rfl ha
          | succ a' => simp [heapSet, heapGet]
      | succ a =>
          cases a' with
          | zero => simp [heapSet, heapGet]
          | succ a' =>
              have : a' ≠ a := fun hc => ha (congrArg Nat.succ hc)
              simp [heapSet, heapGet, ih a a' this]

theorem heapGet_append_lt (h h2 : Heap) (a : Nat) (ha : a < h.length) :
    heapGet (h ++ h2) a = heapGet h a := by
  induction h generalizing a with
  | nil => simp at ha
  | cons x rest ih =>
      cases a with
      | zero => simp [heapGet]
      | succ a =>
          simp only [List.length_cons, Nat.succ_lt_succ_iff] at ha
          simp [heapGet, ih a ha]

theorem heapGet_append_self (h : Heap) (d : Dict) :
    heapGet (h ++ [d]) h.length = d := by
  induction h with
  | nil => simp [heapGet]
  | cons x rest ih => simpa [heapGet] using ih

theorem heapGet_ge_length (h : Heap) (a : Nat) (ha : h.length ≤ a) :
    heapGet h a = [] := by
  induction h generalizing a with
  | nil => simp [heapGet]
  | cons x rest ih =>
      cases a with
      | zero => simp at ha
      | succ a =>
          simp only [List.length_cons, Nat.succ_le_succ_iff] at ha
          simp [heapGet, ih a ha]

theorem heapGet_lt_of_lookup_some (h : Heap) (a : Nat) (k : String) (v : JVal)
    (hl : alLookup (heapGet h a) k = some v) : a < h.length := by
  by_contra hc
  rw [heapGet_ge_length h a (Nat.le_of_not_lt hc)] at hl
  simp [alLookup] at hl

/-! ## Serialization (json.dump) and deserialization (json.load)

json.dump walks the object graph; on a circular structure it raises, which the
fuel-exhaustion case models (fuel is one more than the heap size, enough for
any acyclic graph).  json.load allocates fresh dict objects for every JSON
object in the file, so a loaded document shares no dict with any other object.
-/

def serializeVal (h : Heap) : Nat → JVal → Option JTree
  | _, .jstr s => some (.tstr s)
  | _, .jnum n => some (.tnum n)
  | 0, .jref _ => none
  | fuel + 1, .jref a =>
      (List.foldr
        (fun kv acc =>
          match serializeVal h fuel kv.2, acc with
          | some t, some ts => some ((kv.1, t) :: ts)
          | _, _ => none)
        (some []) (heapGet h a)).map JTree.tobj

/-- Serialize the bindings of one dict, every value with the given fuel. -/
def serializeEntries (h : Heap) (fuel : Nat) (d : Dict) : Option (List (String × JTree)) :=
  List.foldr
    (fun kv acc =>
      match serializeVal h fuel kv.2, acc with
      | some t, some ts => some ((kv.1, t) :: ts)
      | _, _ => none)
    (some []) d

theorem serializeVal_ref (h : Heap) (fuel : Nat) (a : Nat) :
    serializeVal h (fuel + 1) (.jref a) =
      (serializeEntries h fuel (heapGet h a)).map JTree.tobj := rfl

theorem serializeEntries_nil (h : Heap) (fuel : Nat) :
    serializeEntries h fuel [] = some [] := rfl

theorem serializeEntries_cons (h : Heap) (fuel : Nat) (k : String) (v : JVal) (rest : Dict) :
    serializeEntries h fuel ((k, v) :: rest) =
      match serializeVal h fuel v, serializeEntries h fuel rest with
      | some t, some ts => some ((k, t) :: ts)
      | _, _ => none := rfl

mutual

def deserVal (h : Heap) : JTree → Heap × JVal
  | .tstr s => (h, .jstr s)
  | .tnum n => (h, .jnum n)
  | .tobj entries =>
      let (h1, d) := deserEntries h entries
      let (h2, a) := heapAlloc h1 d
      (h2, .jref a)

def deserEntries (h : Heap) : List (String × JTree) → Heap × Dict
  | [] => (h, [])
  | (k, t) :: rest =>
      let (h1, v) := deserVal h t
      let (h2, d) := deserEntries h1 rest
      (h2, (k, v) :: d)

end

/-! ## Files and the clock -/

structure FileEntry where
  content : JTree
  mtime : Nat

/-- Process-global mutable context: the dict heap, the file system and a clock
that advances at every timestamp observation (datetime.now / st_mtime). -/
structure Sys where
  heap : Heap
  files : List (String × FileEntry)
  clock : Nat

def fileLookup (files : List (String × FileEntry)) (path : String) : Option FileEntry :=
  alLookup files path

def fileSet (files : List (String × FileEntry)) (path : String) (fe : FileEntry) :
    List (String × FileEntry) :=
  alSet files path fe

/-- An external manual edit of a file: its modification time advances past every
timestamp the process has recorded; the content is left as it is (the edit
itself is irrelevant to the check-date guard). -/
def touchFile (sys : Sys) (path : String) : Sys :=
  let now := sys.clock + 1
  match fileLookup sys.files path with
  | some fe =>
      { sys with files := fileSet sys.files path { fe with mtime := now }, clock := now }
  | none => { sys with clock := now }

/-! ## Errors raised by the config layer -/

inductive CfgError where
  | configException : String → CfgError   -- config.ConfigException (check-date refusal)
  | keyError : String → CfgError          -- Python KeyError
  | typeError : CfgError                  -- Python TypeError
  | fileNotFound : String → CfgError      -- Python FileNotFoundError
deriving DecidableEq, Repr

/-! ## JsonConfig (config.py class JsonConfig with ConfigMixin / SubconfigMixin) -/

structure JsonConfig where
  path : String
  template : Option Nat          -- heap address of the template dict, or None
  check_date : Bool
  last_readwrite_date : Option Nat
  opts : Nat                     -- heap address of the opts dict
deriving DecidableEq, Repr

/-- The check-date guard at the top of JsonConfig.write: when check_date is
set and the file exists, refuse if the file was modified after the last
load/write. -/
def JsonConfig.writeCheck (sys : Sys) (cfg : JsonConfig) : Except CfgError Unit :=
  match fileLookup sys.files cfg.path with
  | some fe =>
      if cfg.check_date then
        match cfg.last_readwrite_date with
        | none => .error .typeError           -- Python: comparison with None raises
        | some t =>
            if t < fe.mtime then .error (.configException cfg.path) else .ok ()
      else .ok ()
  | none => .ok ()

/-- JsonConfig.write: run the check-date guard, then dump opts to the file and
update last_readwrite_date.  A refused write changes nothing: the error is
raised before the file is opened. -/
def JsonConfig.write (sys : Sys) (cfg : JsonConfig) : Except CfgError (Sys × JsonConfig) :=
  match JsonConfig.writeCheck sys cfg with
  | .error e => .error e
  | .ok _ =>
      match serializeEntries sys.heap (sys.heap.length + 1) (heapGet sys.heap cfg.opts) with
      | none => .error .typeError             -- json.dump raises on a circular structure
      | some ts =>
          let now := sys.clock + 1
          .ok ({ sys with
                   files := fileSet sys.files cfg.path { content := .tobj ts, mtime := now },
                   clock := now },
               { cfg with last_readwrite_date := some now })

/-- JsonConfig.load: parse the file into a fresh dict, update the last
read/write date, then backfill missing template keys (shallow: the very
template values, including references to nested template dicts, are stored);
write only if something was added. -/
def backfillEntries : Dict → List (String × JVal) → Dict × Bool
  | opts, [] => (opts, false)
  | opts, (k, v) :: rest =>
      if alMem opts k then backfillEntries opts rest
      else ((backfillEntries (alSet opts k v) rest).1, true)

def JsonConfig.load (sys : Sys) (cfg : JsonConfig) : Except CfgError (Sys × JsonConfig) :=
  match fileLookup sys.files cfg.path with
  | none => .error (.fileNotFound cfg.path)
  | some fe =>
      match fe.content with
      | .tobj fentries =>
          let (h1, loaded) := deserEntries sys.heap fentries
          let (h2, a) := heapAlloc h1 loaded
          let now := sys.clock + 1
          let sys1 : Sys := { heap := h2, files := sys.files, clock := now }
          let cfg1 := { cfg with opts := a, last_readwrite_date := some now }
          match cfg.template with
          | none => .ok (sys1, cfg1)
          | some t =>
              let tmpl := heapGet h2 t
              let (d1, added) := backfillEntries (heapGet h2 a) tmpl
              let sys2 := { sys1 with heap := heapSet h2 a d1 }
              if added then JsonConfig.write sys2 cfg1 else .ok (sys2, cfg1)
      | _ => .error .typeError               -- dict(...) of a non-object raises

/-- JsonConfig.create: seed opts with a SHALLOW copy of the template (dict(t)
copies the top-level bindings only, so nested template dicts stay shared),
then write. -/
def JsonConfig.create (sys : Sys) (cfg : JsonConfig) : Except CfgError (Sys × JsonConfig) :=
  match cfg.template with
  | some t =>
      let (h1, a) := heapAlloc sys.heap (heapGet sys.heap t)
      JsonConfig.write { sys with heap := h1 } { cfg with opts := a }
  | none => JsonConfig.write sys cfg

/-- JsonConfig.__init__ followed by init(): allocate the initial empty opts
dict, then load if the backing file exists, else create. -/
def JsonConfig.construct (sys : Sys) (path : String) (template : Option Nat)
    (check_date : Bool) : Except CfgError (Sys × JsonConfig) :=
  let (h0, a0) := heapAlloc sys.heap []
  let cfg : JsonConfig :=
    { path := path, template := template, check_date := check_date,
      last_readwrite_date := none, opts := a0 }
  let sys0 : Sys := { sys with heap := h0 }
  if (fileLookup sys0.files path).isSome then JsonConfig.load sys0 cfg
  else JsonConfig.create sys0 cfg

/-! ## ConfigMixin operations on a root JsonConfig -/

/-- ConfigMixin.set on the root document: opts[key] = value; write(). -/
def JsonConfig.set (sys : Sys) (cfg : JsonConfig) (key : String) (v : JVal) :
    Except CfgError (Sys × JsonConfig) :=
  let sys1 := { sys with heap := heapSet sys.heap cfg.opts (alSet (heapGet sys.heap cfg.opts) key v) }
  JsonConfig.write sys1 cfg

/-- ConfigMixin.get on the root document. -/
def JsonConfig.get (sys : Sys) (cfg : JsonConfig) (key : String) : Except CfgError JVal :=
  match alLookup (heapGet sys.heap cfg.opts) key with
  | none => .error (.keyError key)
  | some v => .ok v

/-- ConfigMixin.get_and_set on the root document: opts[key] = f(opts[key]);
write().  The transform may itself raise (for example max applied to a value
that is not a number). -/
def JsonConfig.get_and_set (sys : Sys) (cfg : JsonConfig) (key : String)
    (f : JVal → Except CfgError JVal) : Except CfgError (Sys × JsonConfig) :=
  match alLookup (heapGet sys.heap cfg.opts) key with
  | none => .error (.keyError key)
  | some v =>
      match f v with
      | .error e => .error e
      | .ok v1 =>
          let sys1 :=
            { sys with heap := heapSet sys.heap cfg.opts (alSet (heapGet sys.heap cfg.opts) key v1) }
          JsonConfig.write sys1 cfg

/-- ConfigMixin.delete on the root document: KeyError on a missing key unless
ignore_keyerror is set (then return without touching anything). -/
def JsonConfig.delete (sys : Sys) (cfg : JsonConfig) (key : String)
    (ignore_keyerror : Bool) : Except CfgError (Sys × JsonConfig) :=
  if ignore_keyerror && !(alMem (heapGet sys.heap cfg.opts) key) then .ok (sys, cfg)
  else if !(alMem (heapGet sys.heap cfg.opts) key) then .error (.keyError key)
  else
    let sys1 := { sys with heap := heapSet sys.heap cfg.opts (alDel (heapGet sys.heap cfg.opts) key) }
    JsonConfig.write sys1 cfg

/-- ConfigMixin.get_and_clear on the root document: snapshot dict(opts), then
JsonConfig.clear (which re-binds opts to a brand-new empty dict), then write.
The snapshot is returned as a plain binding list; its values may still be
references into the heap, exactly like the shallow dict(...) copy. -/
def JsonConfig.get_and_clear (sys : Sys) (cfg : JsonConfig) :
    Except CfgError (Sys × JsonConfig × Dict) :=
  let snapshot := heapGet sys.heap cfg.opts
  let (h1, a1) := heapAlloc sys.heap []
  let cfg1 := { cfg with opts := a1 }
  match JsonConfig.write { sys with heap := h1 } cfg1 with
  | .error e => .error e
  | .ok (sys1, cfg2) => .ok (sys1, cfg2, snapshot)

/-! ## SubConfig (config.py class SubConfig)

A SubConfig holds its parent object, the key it was taken from, and a live
reference to the dict stored at parent.opts[key].  The parent here is always
the root JsonConfig (the repository never nests SubConfigs), and because the
parent object is mutable in Python it is threaded through every operation and
returned updated. -/

structure SubConfig where
  name : String
  opts : Nat                     -- live reference into parent.opts[name]
  invalid : Bool
deriving DecidableEq, Repr

/-- SubconfigMixin.sub: wrap the dict currently stored at opts[key].  Python
defers the failure on a non-dict value to the first use; the model surfaces it
here, which no specified behaviour distinguishes. -/
def JsonConfig.sub (sys : Sys) (cfg : JsonConfig) (key : String) :
    Except CfgError SubConfig :=
  match alLookup (heapGet sys.heap cfg.opts) key with
  | none => .error (.keyError key)
  | some (.jref a) => .ok { name := key, opts := a, invalid := false }
  | some _ => .error .typeError

/-- SubConfig.clear: install a brand-new empty dict at parent.opts[name] and
re-bind this SubConfig's live reference to that new dict object.  Sibling
SubConfig views of the same key keep their old, now-detached reference. -/
def SubConfig.clear (sys : Sys) (parent : JsonConfig) (s : SubConfig) :
    Sys × JsonConfig × SubConfig :=
  let (h1, a1) := heapAlloc sys.heap []
  let h2 := heapSet h1 parent.opts (alSet (heapGet h1 parent.opts) s.name (.jref a1))
  ({ sys with heap := h2 }, parent, { s with opts := a1 })

/-- ConfigMixin.set through a SubConfig: mutate the referenced dict, then
SubConfig.write, which delegates to the parent's write. -/
def SubConfig.set (sys : Sys) (parent : JsonConfig) (s : SubConfig) (key : String)
    (v : JVal) : Except CfgError (Sys × JsonConfig × SubConfig) :=
  let sys1 := { sys with heap := heapSet sys.heap s.opts (alSet (heapGet sys.heap s.opts) key v) }
  match JsonConfig.write sys1 parent with
  | .error e => .error e
  | .ok (sys2, parent1) => .ok (sys2, parent1, s)

/-- ConfigMixin.delete through a SubConfig. -/
def SubConfig.delete (sys : Sys) (parent : JsonConfig) (s : SubConfig) (key : String)
    (ignore_keyerror : Bool) : Except CfgError (Sys × JsonConfig × SubConfig) :=
  if ignore_keyerror && !(alMem (heapGet sys.heap s.opts) key) then .ok (sys, parent, s)
  else if !(alMem (heapGet sys.heap s.opts) key) then .error (.keyError key)
  else
    let sys1 := { sys with heap := heapSet sys.heap s.opts (alDel (heapGet sys.heap s.opts) key) }
    match JsonConfig.write sys1 parent with
    | .error e => .error e
    | .ok (sys2, parent1) => .ok (sys2, parent1, s)

/-- ConfigMixin.get_and_clear through a SubConfig: snapshot dict(opts), then
SubConfig.clear (fresh dict in the parent plus re-bind), then write via the
parent. -/
def SubConfig.get_and_clear (sys : Sys) (parent : JsonConfig) (s : SubConfig) :
    Except CfgError (Sys × JsonConfig × SubConfig × Dict) :=
  let snapshot := heapGet sys.heap s.opts
  let (sys1, parent1, s1) := SubConfig.clear sys parent s
  match JsonConfig.write sys1 parent1 with
  | .error e => .error e
  | .ok (sys2, parent2) => .ok (sys2, parent2, s1, snapshot)

/-! ## JsonConfigDB (config.py class JsonConfigDB) -/

structure JsonConfigDB where
  path : String
  template : Option Nat          -- heap address of the template dict, or None
  unique_template : Bool
  db : List (String × JsonConfig)
deriving DecidableEq, Repr

def JsonConfigDB.cfg_loc (store : JsonConfigDB) (cid : String) : String :=
  store.path ++ "/" ++ cid ++ ".json"

/-- JsonConfigDB.get_template: with unique_template, look the id up inside the
template dict (a fresh empty dict on a miss, as the literal in the source
allocates one); otherwise every id shares the same template object. -/
def JsonConfigDB.get_template (sys : Sys) (store : JsonConfigDB) (cid : String) :
    Except CfgError (Sys × Option Nat) :=
  if store.unique_template then
    match store.template with
    | none => .error .typeError          -- membership test on None raises
    | some t =>
        match alLookup (heapGet sys.heap t) cid with
        | some (.jref a) => .ok (sys, some a)
        | some _ => .error .typeError
        | none =>
            let (h1, a1) := heapAlloc sys.heap []
            .ok ({ sys with heap := h1 }, some a1)
  else .ok (sys, store.template)

/-- JsonConfigDB.create_config. -/
def JsonConfigDB.create_config (sys : Sys) (store : JsonConfigDB) (cid : String) :
    Except CfgError (Sys × JsonConfigDB) :=
  match JsonConfigDB.get_template sys store cid with
  | .error e => .error e
  | .ok (sys1, tmpl) =>
      match JsonConfig.construct sys1 (store.cfg_loc cid) tmpl false with
      | .error e => .error e
      | .ok (sys2, cfg) => .ok (sys2, { store with db := alSet store.db cid cfg })

/-- JsonConfigDB.get_config: create on a miss; the returned id indexes the
(possibly updated) db, standing for the shared mutable JsonConfig object. -/
def JsonConfigDB.get_config (sys : Sys) (store : JsonConfigDB) (cid : String) :
    Except CfgError (Sys × JsonConfigDB × String) :=
  match alLookup store.db cid with
  | some _ => .ok (sys, store, cid)
  | none =>
      match JsonConfigDB.create_config sys store cid with
      | .error e => .error e
      | .ok (sys1, store1) => .ok (sys1, store1, cid)

/-! ## The persistence bridge and resumption (src/wrapper.py class CoreWrapper)

Job and schedule headers are opaque, externally defined records; persistence
only needs their id and owning guild.  The external job queue and scheduler
are modelled by the event logs of submitted jobs and created schedules; the
subscription callbacks registered in the constructor (on_job_submit,
on_job_stop, on_job_cancel, on_create_schedule, on_delete_schedule) run
synchronously when those collaborators fire them, as the persistence bridge
methods below.  Guild resolution (bot.get_guild) is the identity on ids here;
resolution failures are out of scope of the verified claims. -/

structure JobHeader where
  id : Int
  guild_id : String
deriving DecidableEq, Repr

/-- JobHeader.as_dict / CronHeader.as_dict: build a fresh dict for the header. -/
def JobHeader.as_dict (sys : Sys) (hd : JobHeader) : Sys × JVal :=
  let (h1, a) := heapAlloc sys.heap
    [("id", .jnum hd.id), ("guild_id", .jstr hd.guild_id)]
  ({ sys with heap := h1 }, .jref a)

/-- CronHeader.from_dict / JobHeader.from_dict: rebuild a header from a stored
dict value. -/
def JobHeader.from_dict (sys : Sys) (v : JVal) : Except CfgError JobHeader :=
  match v with
  | .jref a =>
      match alLookup (heapGet sys.heap a) "id", alLookup (heapGet sys.heap a) "guild_id" with
      | some (.jnum i), some (.jstr g) => .ok { id := i, guild_id := g }
      | _, _ => .error .typeError
  | _ => .error .typeError

structure WrapperState where
  sys : Sys
  job_db : JsonConfigDB
  monkycfg : JsonConfig
  jobs_resumed : Bool
  submitted : List JobHeader     -- jobs handed to the external job queue
  schedules : List JobHeader     -- schedules handed to the external scheduler

/-- CoreWrapper._cfg_job_create (on_job_submit callback): mirror the submitted
job under the owning guild's jobs sub-document. -/
def cfgJobCreate (ws : WrapperState) (hd : JobHeader) : Except CfgError WrapperState :=
  match JsonConfigDB.get_config ws.sys ws.job_db hd.guild_id with
  | .error e => .error e
  | .ok (sys1, jdb1, cid) =>
      match alLookup jdb1.db cid with
      | none => .error (.keyError cid)
      | some cfg =>
          match JsonConfig.sub sys1 cfg "jobs" with
          | .error e => .error e
          | .ok s =>
              let (sys2, v) := JobHeader.as_dict sys1 hd
              match SubConfig.set sys2 cfg s (toString hd.id) v with
              | .error e => .error e
              | .ok (sys3, cfg1, _) =>
                  .ok { ws with sys := sys3,
                                job_db := { jdb1 with db := alSet jdb1.db cid cfg1 } }

/-- CoreWrapper._cfg_job_delete (on_job_stop and on_job_cancel callback):
remove the mirrored job, tolerating a missing entry. -/
def cfgJobDelete (ws : WrapperState) (hd : JobHeader) : Except CfgError WrapperState :=
  match JsonConfigDB.get_config ws.sys ws.job_db hd.guild_id with
  | .error e => .error e
  | .ok (sys1, jdb1, cid) =>
      match alLookup jdb1.db cid with
      | none => .error (.keyError cid)
      | some cfg =>
          match JsonConfig.sub sys1 cfg "jobs" with
          | .error e => .error e
          | .ok s =>
              match SubConfig.delete sys1 cfg s (toString hd.id) true with
              | .error e => .error e
              | .ok (sys2, cfg1, _) =>
                  .ok { ws with sys := sys2,
                                job_db := { jdb1 with db := alSet jdb1.db cid cfg1 } }

/-- The transform passed to get_and_set for the last schedule id:
max of the stored value and the created header's id. -/
def maxIdFn (i : Int) : JVal → Except CfgError JVal
  | .jnum n => .ok (.jnum (max n i))
  | _ => .error .typeError

/-- CoreWrapper._cfg_sched_create (on_create_schedule callback): mirror the
schedule under the guild's cron sub-document, then push the process-wide last
schedule id forward monotonically. -/
def cfgSchedCreate (ws : WrapperState) (hd : JobHeader) : Except CfgError WrapperState :=
  match JsonConfigDB.get_config ws.sys ws.job_db hd.guild_id with
  | .error e => .error e
  | .ok (sys1, jdb1, cid) =>
      match alLookup jdb1.db cid with
      | none => .error (.keyError cid)
      | some cfg =>
          match JsonConfig.sub sys1 cfg "cron" with
          | .error e => .error e
          | .ok s =>
              let (sys2, v) := JobHeader.as_dict sys1 hd
              match SubConfig.set sys2 cfg s (toString hd.id) v with
              | .error e => .error e
              | .ok (sys3, cfg1, _) =>
                  match JsonConfig.get_and_set sys3 ws.monkycfg "last_schedule_id"
                      (maxIdFn hd.id) with
                  | .error e => .error e
                  | .ok (sys4, monky1) =>
                      .ok { ws with sys := sys4,
                                    job_db := { jdb1 with db := alSet jdb1.db cid cfg1 },
                                    monkycfg := monky1 }

/-- CoreWrapper._cfg_sched_delete (on_delete_schedule callback): remove the
mirrored schedule; a missing id propagates as KeyError. -/
def cfgSchedDelete (ws : WrapperState) (hd : JobHeader) : Except CfgError WrapperState :=
  match JsonConfigDB.get_config ws.sys ws.job_db hd.guild_id with
  | .error e => .error e
  | .ok (sys1, jdb1, cid) =>
      match alLookup jdb1.db cid with
      | none => .error (.keyError cid)
      | some cfg =>
          match JsonConfig.sub sys1 cfg "cron" with
          | .error e => .error e
          | .ok s =>
              match SubConfig.delete sys1 cfg s (toString hd.id) false with
              | .error e => .error e
              | .ok (sys2, cfg1, _) =>
                  .ok { ws with sys := sys2,
                                job_db := { jdb1 with db := alSet jdb1.db cid cfg1 } }

/-- A sequence of schedule-created events delivered in order. -/
def schedCreateSeq (ws : WrapperState) : List JobHeader → Except CfgError WrapperState
  | [] => .ok ws
  | hd :: rest =>
      match cfgSchedCreate ws hd with
      | .error e => .error e
      | .ok ws1 => schedCreateSeq ws1 rest

/-- CoreWrapper.reschedule_cron: rebuild the header through the cron factory
and register it with the scheduler, whose on_create_schedule callback
re-persists it. -/
def rescheduleCron (ws : WrapperState) (v : JVal) : Except CfgError WrapperState :=
  match JobHeader.from_dict ws.sys v with
  | .error e => .error e
  | .ok hd => cfgSchedCreate { ws with schedules := ws.schedules ++ [hd] } hd

/-- CoreWrapper.resume_job: rebuild the job through the job factory and submit
it to the queue, whose on_job_submit callback re-persists it. -/
def resumeJob (ws : WrapperState) (v : JVal) : Except CfgError WrapperState :=
  match JobHeader.from_dict ws.sys v with
  | .error e => .error e
  | .ok hd => cfgJobCreate { ws with submitted := ws.submitted ++ [hd] } hd

def processSnapshot (step : WrapperState → JVal → Except CfgError WrapperState) :
    WrapperState → Dict → Except CfgError WrapperState
  | ws, [] => .ok ws
  | ws, (_, v) :: rest =>
      match step ws v with
      | .error e => .error e
      | .ok ws1 => processSnapshot step ws1 rest

/-- One guild of CoreWrapper.reschedule_all_cron / resume_jobs: snapshot and
clear the given sub-document of the guild's job config, then replay every
captured header. -/
def resumeGuild (subkey : String)
    (step : WrapperState → JVal → Except CfgError WrapperState)
    (ws : WrapperState) (cid : String) : Except CfgError WrapperState :=
  match alLookup ws.job_db.db cid with
  | none => .ok ws
  | some cfg =>
      match JsonConfig.sub ws.sys cfg subkey with
      | .error e => .error e
      | .ok s =>
          match SubConfig.get_and_clear ws.sys cfg s with
          | .error e => .error e
          | .ok (sys1, cfg1, _, snapshot) =>
              processSnapshot step
                { ws with sys := sys1,
                          job_db := { ws.job_db with db := alSet ws.job_db.db cid cfg1 } }
                snapshot

def resumeGuilds (subkey : String)
    (step : WrapperState → JVal → Except CfgError WrapperState)
    (ws : WrapperState) : List String → Except CfgError WrapperState
  | [] => .ok ws
  | cid :: rest =>
      match resumeGuild subkey step ws cid with
      | .error e => .error e
      | .ok ws1 => resumeGuilds subkey step ws1 rest

/-- CoreWrapper.reschedule_all_cron. -/
def rescheduleAllCron (ws : WrapperState) : Except CfgError WrapperState :=
  resumeGuilds "cron" rescheduleCron ws (ws.job_db.db.map Prod.fst)

/-- CoreWrapper.resume_jobs. -/
def resumeJobs (ws : WrapperState) : Except CfgError WrapperState :=
  resumeGuilds "jobs" resumeJob ws (ws.job_db.db.map Prod.fst)

/-- CoreWrapper.__on_ready: one resumption pass, guarded by jobs_resumed;
schedules are replayed before jobs, and the flag flips only after both passes
completed. -/
def onReady (ws : WrapperState) : Except CfgError WrapperState :=
  if ws.jobs_resumed then .ok ws
  else
    match rescheduleAllCron ws with
    | .error e => .error e
    | .ok ws1 =>
        match resumeJobs ws1 with
        | .error e => .error e
        | .ok ws2 => .ok { ws2 with jobs_resumed := true }

/-! ## GuildStateDB (src/wrapper.py class GuildStateDB)

Registered state types are their qualified-name keys; cached instances are
identified by allocation tokens, modelling Python object identity (equal
tokens, same object). -/

inductive GSError where
  | guildStateException : GSError
  | typeError : GSError
deriving DecidableEq, Repr

structure GuildStateDB where
  types : List String
  statedb : List (String × List (Nat × Nat))   -- typekey -> (guild id -> instance token)
  next_token : Nat
deriving DecidableEq, Repr

def natLookup {α : Type} : List (Nat × α) → Nat → Option α
  | [], _ => none
  | (k, v) :: rest, key => if k = key then some v else natLookup rest key

def natSet {α : Type} : List (Nat × α) → Nat → α → List (Nat × α)
  | [], key, v => [(key, v)]
  | (k, w) :: rest, key, v =>
      if k = key then (k, v) :: rest else (k, w) :: natSet rest key v

/-- GuildStateDB.register_cls. -/
def GuildStateDB.register_cls (db : GuildStateDB) (k : String) :
    Except GSError GuildStateDB :=
  if k ∈ db.types then .error .guildStateException
  else .ok { db with types := db.types ++ [k], statedb := alSet db.statedb k [] }

/-- GuildStateDB.get: return the cached instance for (type, guild id), or
construct, cache and return a fresh one. -/
def GuildStateDB.get (db : GuildStateDB) (k : String) (gid : Nat) :
    Except GSError (GuildStateDB × Nat) :=
  if k ∈ db.types then
    let states := (alLookup db.statedb k).getD []
    match natLookup states gid with
    | some tok => .ok (db, tok)
    | none =>
        let tok := db.next_token
        .ok ({ db with statedb := alSet db.statedb k (natSet states gid tok),
                       next_token := db.next_token + 1 }, tok)
  else .error .guildStateException

/-- GuildStateDB.delete, exactly as written: for each per-type state dict, if
the guild id is a key there, execute del guild_id[states]; the operands are
transposed, so the statement subscripts the integer guild id and Python raises
TypeError before anything is removed. -/
def GuildStateDB.delete (db : GuildStateDB) (gid : Nat) : Except GSError GuildStateDB :=
  if db.statedb.any (fun p => (natLookup p.2 gid).isSome) then .error .typeError
  else .ok db

/-! ## General lemmas about write -/

theorem write_ok_inv (sys : Sys) (cfg : JsonConfig) (sys' : Sys) (cfg' : JsonConfig)
    (h : JsonConfig.write sys cfg = .ok (sys', cfg')) :
    ∃ ts, serializeEntries sys.heap (sys.heap.length + 1) (heapGet sys.heap cfg.opts) = some ts ∧
      sys' = { sys with
                 files := fileSet sys.files cfg.path
                   { content := .tobj ts, mtime := sys.clock + 1 },
                 clock := sys.clock + 1 } ∧
      cfg' = { cfg with last_readwrite_date := some (sys.clock + 1) } := by
  unfold JsonConfig.write at h
  cases hc : JsonConfig.writeCheck sys cfg with
  | error e => rw [hc] at h; exact absurd h (by simp)
  | ok u =>
      rw [hc] at h
      cases hs : serializeEntries sys.heap (sys.heap.length + 1) (heapGet sys.heap cfg.opts) with
      | none => rw [hs] at h; exact absurd h (by simp)
      | some ts =>
          rw [hs] at h
          simp only [Except.ok.injEq, Prod.mk.injEq] at h
          exact ⟨ts, rfl, h.1.symm, h.2.symm⟩

theorem writeCheck_of_not_check_date (sys : Sys) (cfg : JsonConfig)
    (h : cfg.check_date = false) : JsonConfig.writeCheck sys cfg = .ok () := by
  unfold JsonConfig.writeCheck
  cases fileLookup sys.files cfg.path <;> simp [h]

/-! ## Claim C1: TransientStateRegistry get / delete -/

def c1Db0 : GuildStateDB := { types := [], statedb := [], next_token := 0 }

def c1Db1 : GuildStateDB := { types := ["T"], statedb := [("T", [])], next_token := 0 }

def c1Db2 : GuildStateDB := { types := ["T"], statedb := [("T", [(1, 0)])], next_token := 1 }

/-- C1: in the registry with state type T registered, get(T, 1) caches
instance 0 and a second get(T, 1) returns the identity-equal cached instance;
but delete(1) then raises TypeError instead of removing the cached instance,
because GuildStateDB.delete executes del guild_id[states] with the operands
transposed.  The claimed behaviour of delete (remove the entity's cached
instance across every registered type, so that the next get constructs a new
instance) is therefore unreachable whenever there is anything to delete. -/
theorem guildStateDelete_raises_typeError :
    GuildStateDB.register_cls c1Db0 "T" = .ok c1Db1 ∧
    GuildStateDB.get c1Db1 "T" 1 = .ok (c1Db2, 0) ∧
    GuildStateDB.get c1Db2 "T" 1 = .ok (c1Db2, 0) ∧
    GuildStateDB.delete c1Db2 1 = .error .typeError :=
  ⟨rfl, rfl, rfl, rfl⟩

/-! ## Claim C2: cross-document isolation of opts -/

def c2Sys0 : Sys :=
  { heap := [[("jobs", .jref 1), ("cron", .jref 2)], [], []], files := [], clock := 0 }

def c2Store0 : JsonConfigDB :=
  { path := "jobdb", template := some 0, unique_template := false, db := [] }

/-- The store of the failing input: the job store template, a dict whose
values jobs and cron are themselves dict objects, exactly as CoreWrapper
passes it; get_config creates the documents for entities 1 and 2, then entity
1 alone is mutated through its jobs SubDocument. -/
def c2Run : Except CfgError (Sys × JsonConfigDB) :=
  match JsonConfigDB.get_config c2Sys0 c2Store0 "1" with
  | .error e => .error e
  | .ok (sys1, store1, _) =>
      match JsonConfigDB.get_config sys1 store1 "2" with
      | .error e => .error e
      | .ok (sys2, store2, _) =>
          match alLookup store2.db "1" with
          | none => .error (.keyError "1")
          | some cfg1 =>
              match JsonConfig.sub sys2 cfg1 "jobs" with
              | .error e => .error e
              | .ok s =>
                  match SubConfig.set sys2 cfg1 s "1" (.jstr "x") with
                  | .error e => .error e
                  | .ok (sys3, cfg1x, _) =>
                      .ok (sys3, { store2 with db := alSet store2.db "1" cfg1x })

/-- Entity 2's nested jobs mapping after the run above. -/
def c2Doc2JobsDict : Dict :=
  match c2Run with
  | .ok (sys, store) =>
      match alLookup store.db "2" with
      | some cfg2 =>
          match alLookup (heapGet sys.heap cfg2.opts) "jobs" with
          | some (.jref a) => heapGet sys.heap a
          | _ => []
      | none => []
  | .error _ => []

/-- C2: mutating entity 1's document through its jobs SubDocument changes
entity 2's document as well: both documents were seeded by dict(template), a
shallow copy, so their opts share the template's single nested jobs dict
object.  Entity 2's nested jobs mapping ends up holding the binding written
through entity 1, refuting exclusive ownership of each Document's opts. -/
theorem templateAliasing_crossDocument_leak :
    c2Doc2JobsDict = [("1", JVal.jstr "x")] := rfl

/-! ## Claim C3: the check-date guard -/

/-- C3: with check_date enabled, after a successful write a second write with
no external modification succeeds, while if the file's modification time is
advanced externally past the recorded last read/write timestamp the second
write fails with the ConcurrentModification error and the file keeps exactly
the content the first write stored (the error is raised before anything is
written, and the model returns no new state on the error path). -/
theorem write_checkDate_concurrentModification
    (sys : Sys) (cfg : JsonConfig) (sys1 : Sys) (cfg1 : JsonConfig)
    (hcd : cfg.check_date = true)
    (h : JsonConfig.write sys cfg = .ok (sys1, cfg1)) :
    (JsonConfig.write sys1 cfg1).isOk = true ∧
    JsonConfig.write (touchFile sys1 cfg.path) cfg1 = .error (.configException cfg.path) ∧
    (fileLookup (touchFile sys1 cfg.path).files cfg.path).map FileEntry.content =
      (fileLookup sys1.files cfg.path).map FileEntry.content := by
  obtain ⟨ts, hser, hsys1, hcfg1⟩ := write_ok_inv _ _ _ _ h
  subst hsys1; subst hcfg1
  have hfl : fileLookup
      (fileSet sys.files cfg.path { content := .tobj ts, mtime := sys.clock + 1 }) cfg.path =
      some { content := .tobj ts, mtime := sys.clock + 1 } := by
    simp only [fileLookup, fileSet]
    exact alLookup_alSet_self _ _ _
  refine ⟨?_, ?_, ?_⟩
  · unfold JsonConfig.write JsonConfig.writeCheck
    simp only [hfl, hcd, if_true]
    simp only [Nat.lt_irrefl, if_false]
    simp only [hser]
    rfl
  · unfold touchFile
    simp only [hfl]
    unfold JsonConfig.write JsonConfig.writeCheck
    have hfl2 : fileLookup
        (fileSet (fileSet sys.files cfg.path { content := .tobj ts, mtime := sys.clock + 1 })
          cfg.path { content := .tobj ts, mtime := sys.clock + 1 + 1 }) cfg.path =
        some { content := .tobj ts, mtime := sys.clock + 1 + 1 } := by
      simp only [fileLookup, fileSet]
      exact alLookup_alSet_self _ _ _
    simp only [hfl2, hcd, if_true]
    simp only [Nat.lt_succ_self, if_true]
  · unfold touchFile
    simp only [hfl]
    have hfl2 : fileLookup
        (fileSet (fileSet sys.files cfg.path { content := .tobj ts, mtime := sys.clock + 1 })
          cfg.path { content := .tobj ts, mtime := sys.clock + 1 + 1 }) cfg.path =
        some { content := .tobj ts, mtime := sys.clock + 1 + 1 } := by
      simp only [fileLookup, fileSet]
      exact alLookup_alSet_self _ _ _
    simp only [hfl2, hfl]
    rfl

/-! ## Claims C4 and C10: SubConfig.clear re-binding and sibling views -/

theorem serializeEntries_lookup (h : Heap) (fuel : Nat) (d : Dict)
    (ts : List (String × JTree)) (hs : serializeEntries h fuel d = some ts)
    (k : String) (v : JVal) (hl : alLookup d k = some v) :
    ∃ t, serializeVal h fuel v = some t ∧ alLookup ts k = some t := by
  induction d generalizing ts with
  | nil => simp [alLookup] at hl
  | cons kv rest ih =>
      obtain ⟨k0, v0⟩ := kv
      rw [serializeEntries_cons] at hs
      cases h0 : serializeVal h fuel v0 with
      | none => rw [h0] at hs; simp at hs
      | some t0 =>
          cases h1 : serializeEntries h fuel rest with
          | none => rw [h0, h1] at hs; simp at hs
          | some ts0 =>
              rw [h0, h1] at hs
              simp only [Option.some.injEq] at hs
              subst hs
              by_cases hk : k0 = k
              · subst hk
                have hv : v0 = v := by simpa [alLookup] using hl
                subst hv
                exact ⟨t0, h0, by simp [alLookup]⟩
              · simp only [alLookup, if_neg hk] at hl ⊢
                exact ih ts0 h1 hl

/-- The JSON tree stored in the file at path, at top-level key. -/
def fileContentAt (sys : Sys) (path key : String) : Option JTree :=
  match fileLookup sys.files path with
  | some fe =>
      match fe.content with
      | .tobj ts => alLookup ts key
      | _ => none
  | none => none

theorem subSet_ok_inv (sys : Sys) (parent : JsonConfig) (s : SubConfig)
    (key : String) (v : JVal) (sys' : Sys) (parent' : JsonConfig) (s' : SubConfig)
    (h : SubConfig.set sys parent s key v = .ok (sys', parent', s')) :
    ∃ ts, serializeEntries (heapSet sys.heap s.opts (alSet (heapGet sys.heap s.opts) key v))
        (sys.heap.length + 1)
        (heapGet (heapSet sys.heap s.opts (alSet (heapGet sys.heap s.opts) key v)) parent.opts) =
        some ts ∧
      sys' = { heap := heapSet sys.heap s.opts (alSet (heapGet sys.heap s.opts) key v),
               files := fileSet sys.files parent.path
                 { content := .tobj ts, mtime := sys.clock + 1 },
               clock := sys.clock + 1 } ∧
      parent' = { parent with last_readwrite_date := some (sys.clock + 1) } ∧
      s' = s := by
  simp only [SubConfig.set] at h
  cases hw : JsonConfig.write
      { sys with heap := heapSet sys.heap s.opts (alSet (heapGet sys.heap s.opts) key v) }
      parent with
  | error e => rw [hw] at h; simp at h
  | ok p =>
      obtain ⟨sysw, parentw⟩ := p
      rw [hw] at h
      simp only [Except.ok.injEq, Prod.mk.injEq] at h
      obtain ⟨h1, h2, h3⟩ := h
      obtain ⟨ts, hser, hsysw, hparentw⟩ := write_ok_inv _ _ _ _ hw
      refine ⟨ts, ?_, ?_, ?_, h3.symm⟩
      · rw [← hser]
        congr 1
        exact (heapSet_length _ _ _).symm ▸ rfl
      · rw [← h1, hsysw]
      · rw [← h2, hparentw]

/-- The aliasing scenario of the spec: through one SubDocument view of jobs,
set then clear then set. -/
def c4Run (sys : Sys) (cfg : JsonConfig) : Except CfgError (Sys × JsonConfig × SubConfig) :=
  match JsonConfig.sub sys cfg "jobs" with
  | .error e => .error e
  | .ok s =>
      match SubConfig.set sys cfg s "1" (.jstr "x") with
      | .error e => .error e
      | .ok (sys1, cfg1, s1) =>
          let (sys2, cfg2, s2) := SubConfig.clear sys1 cfg1 s1
          SubConfig.set sys2 cfg2 s2 "2" (.jstr "y")

/-- C4: whenever the sequence sub set 1 x, sub clear, sub set 2 y completes on
a document, the document's data at jobs is exactly the single binding of 2 to
y, with no trace of key 1: clear installed a fresh empty dict at opts jobs and
re-bound the view, so the final set landed in the dict the document now
references. -/
theorem subClear_rebind_sequence
    (sys : Sys) (cfg : JsonConfig) (sys' : Sys) (cfg' : JsonConfig) (s' : SubConfig)
    (h : c4Run sys cfg = .ok (sys', cfg', s')) :
    heapGet sys'.heap s'.opts = [("2", JVal.jstr "y")] ∧
    alLookup (heapGet sys'.heap cfg'.opts) "jobs" = some (.jref s'.opts) := by
  unfold c4Run at h
  cases hj : alLookup (heapGet sys.heap cfg.opts) "jobs" with
  | none => simp only [JsonConfig.sub, hj] at h; exact Except.noConfusion h
  | some w =>
      cases w with
      | jstr s0 => simp only [JsonConfig.sub, hj] at h; exact Except.noConfusion h
      | jnum n0 => simp only [JsonConfig.sub, hj] at h; exact Except.noConfusion h
      | jref j =>
          simp only [JsonConfig.sub, hj] at h
          have hoptslt : cfg.opts < sys.heap.length :=
            heapGet_lt_of_lookup_some _ _ _ _ hj
          cases hset1 : SubConfig.set sys cfg
              { name := "jobs", opts := j, invalid := false } "1" (.jstr "x") with
          | error e => rw [hset1] at h; simp at h
          | ok p1 =>
              obtain ⟨sys1, cfg1, s1⟩ := p1
              rw [hset1] at h
              simp only [SubConfig.clear, heapAlloc] at h
              obtain ⟨ts1, hser1, hsys1, hcfg1, hs1⟩ := subSet_ok_inv _ _ _ _ _ _ _ _ hset1
              subst hsys1; subst hcfg1; subst hs1
              simp only at h
              obtain ⟨ts2, hser2, hsys', hcfg', hs'⟩ := subSet_ok_inv _ _ _ _ _ _ _ _ h
              subst hsys'; subst hcfg'; subst hs'
              simp only
              -- names for the two heaps
              have hW1len : (heapSet sys.heap j
                  (alSet (heapGet sys.heap j) "1" (.jstr "x"))).length = sys.heap.length :=
                heapSet_length _ _ _
              have hoptsne : cfg.opts ≠ (heapSet sys.heap j
                  (alSet (heapGet sys.heap j) "1" (.jstr "x"))).length := by
                rw [hW1len]; exact Nat.ne_of_lt hoptslt
              have hfresh : heapGet
                  (heapSet
                    (heapSet sys.heap j (alSet (heapGet sys.heap j) "1" (.jstr "x")) ++ [[]])
                    cfg.opts
                    (alSet
                      (heapGet
                        (heapSet sys.heap j (alSet (heapGet sys.heap j) "1" (.jstr "x")) ++ [[]])
                        cfg.opts)
                      "jobs"
                      (.jref (heapSet sys.heap j
                        (alSet (heapGet sys.heap j) "1" (.jstr "x"))).length)))
                  (heapSet sys.heap j
                    (alSet (heapGet sys.heap j) "1" (.jstr "x"))).length = [] := by
                rw [heapGet_heapSet_ne _ _ _ _ (Ne.symm hoptsne)]
                exact heapGet_append_self _ []
              constructor
              · rw [hfresh]
                rw [heapGet_heapSet_self]
                · rfl
                · simp only [heapSet_length, List.length_append, hW1len,
                    List.length_cons, List.length_nil]
                  omega
              · rw [heapGet_heapSet_ne _ _ _ _ hoptsne]
                rw [heapGet_heapSet_self]
                · exact alLookup_alSet_self _ _ _
                · simp only [heapSet_length, List.length_append, hW1len,
                    List.length_cons, List.length_nil]
                  omega

/-- Two sibling SubDocument views of the same key; the first clears, then the
second (stale) view writes. -/
def c10Run (sys : Sys) (cfg : JsonConfig) (k a : String) (v : JVal) :
    Except CfgError (Sys × JsonConfig × SubConfig × SubConfig) :=
  match JsonConfig.sub sys cfg k with
  | .error e => .error e
  | .ok s1 =>
      match JsonConfig.sub sys cfg k with
      | .error e => .error e
      | .ok s2 =>
          let (sys1, cfg1, s1c) := SubConfig.clear sys cfg s1
          match SubConfig.set sys1 cfg1 s2 a v with
          | .error e => .error e
          | .ok (sys2, cfg2, s2x) => .ok (sys2, cfg2, s1c, s2x)

/-- C10: after s1.clear(), a set through the sibling view s2 lands only in the
now-detached old dict: the document still references the fresh empty dict the
clear installed, and the persisted file holds the empty object under the key,
with no trace of the binding written through s2. -/
theorem siblingSub_clear_detached_set
    (sys : Sys) (cfg : JsonConfig) (k a : String) (v : JVal) (o : Nat)
    (sys' : Sys) (cfg' : JsonConfig) (s1c s2x : SubConfig)
    (ho : alLookup (heapGet sys.heap cfg.opts) k = some (.jref o))
    (hne : o ≠ cfg.opts)
    (holt : o < sys.heap.length)
    (h : c10Run sys cfg k a v = .ok (sys', cfg', s1c, s2x)) :
    s2x.opts = o ∧
    heapGet sys'.heap o = alSet (heapGet sys.heap o) a v ∧
    alLookup (heapGet sys'.heap cfg'.opts) k = some (.jref s1c.opts) ∧
    s1c.opts ≠ o ∧
    heapGet sys'.heap s1c.opts = [] ∧
    fileContentAt sys' cfg.path k = some (.tobj []) := by
  have hoptslt : cfg.opts < sys.heap.length := heapGet_lt_of_lookup_some _ _ _ _ ho
  unfold c10Run at h
  simp only [JsonConfig.sub, ho] at h
  simp only [SubConfig.clear, heapAlloc] at h
  set H2 : Heap := heapSet (sys.heap ++ [[]]) cfg.opts
    (alSet (heapGet (sys.heap ++ [[]]) cfg.opts) k (.jref sys.heap.length)) with hH2
  cases hset : SubConfig.set { sys with heap := H2 } cfg
      { name := k, opts := o, invalid := false } a v with
  | error e => rw [hset] at h; exact Except.noConfusion h
  | ok p =>
      obtain ⟨sysx, cfgx, s2y⟩ := p
      rw [hset] at h
      simp only [Except.ok.injEq, Prod.mk.injEq] at h
      obtain ⟨hsysx, hcfgx, hs1c, hs2x⟩ := h
      obtain ⟨ts2, hser2, hsys2, hcfg2, hs2⟩ := subSet_ok_inv _ _ _ _ _ _ _ _ hset
      subst hsysx; subst hcfgx; subst hs2
      subst hsys2; subst hcfg2
      subst hs1c; subst hs2x
      set H3 : Heap := heapSet H2 o (alSet (heapGet H2 o) a v) with hH3
      have hlen2 : H2.length = sys.heap.length + 1 := by
        rw [hH2, heapSet_length, List.length_append]
        rfl
      have hget_o : heapGet H2 o = heapGet sys.heap o := by
        rw [hH2, heapGet_heapSet_ne _ _ _ _ hne]
        exact heapGet_append_lt _ _ _ holt
      have hLneo : sys.heap.length ≠ o := Ne.symm (Nat.ne_of_lt holt)
      have hget_opts : heapGet H3 cfg.opts =
          alSet (heapGet (sys.heap ++ [[]]) cfg.opts) k (.jref sys.heap.length) := by
        rw [hH3, heapGet_heapSet_ne _ _ _ _ (Ne.symm hne), hH2]
        rw [heapGet_heapSet_self]
        rw [List.length_append]
        simp only [List.length_cons, List.length_nil]
        omega
      have hget_L : heapGet H3 sys.heap.length = [] := by
        rw [hH3, heapGet_heapSet_ne _ _ _ _ hLneo, hH2]
        rw [heapGet_heapSet_ne _ _ _ _ (Ne.symm (Nat.ne_of_lt hoptslt))]
        exact heapGet_append_self _ []
      refine ⟨rfl, ?_, ?_, Ne.symm (Nat.ne_of_lt holt), hget_L, ?_⟩
      · rw [hH3, heapGet_heapSet_self]
        · rw [hget_o]
        · rw [hlen2]
          exact Nat.lt_succ_of_lt holt
      · rw [hget_opts]
        exact alLookup_alSet_self _ _ _
      · have hlook : alLookup (heapGet H3 cfg.opts) k = some (.jref sys.heap.length) := by
          rw [hget_opts]
          exact alLookup_alSet_self _ _ _
        obtain ⟨t, hval, hts⟩ := serializeEntries_lookup _ _ _ _ hser2 _ _ hlook
        rw [serializeVal_ref] at hval
        rw [hget_L] at hval
        rw [serializeEntries_nil] at hval
        simp only [Option.map_some'] at hval
        unfold fileContentAt
        simp only [fileLookup, fileSet]
        rw [alLookup_alSet_self]
        show alLookup ts2 k = some (.tobj [])
        rw [hts, ← hval]

/-! ## Claim C6: get_and_clear on Documents and SubDocuments -/

/-- C6: whenever get_and_clear returns, on a Document or on a SubDocument, it
returns the shallow snapshot of the opts mapping taken before the reset, and
afterwards the cleared mapping is a fresh empty dict that has been persisted.
For a root Document the backing file now holds the empty JSON object, stamped
at the write's timestamp; for a SubDocument the parent's opts references the
fresh empty dict under the view's key, the re-bound view points at it, and
the persisted file holds the empty object under that key. -/
theorem getAndClear_snapshot_and_persist_empty :
    (∀ (sys : Sys) (cfg : JsonConfig) (sys1 : Sys) (cfg1 : JsonConfig) (snap : Dict),
      JsonConfig.get_and_clear sys cfg = .ok (sys1, cfg1, snap) →
      snap = heapGet sys.heap cfg.opts ∧
      heapGet sys1.heap cfg1.opts = [] ∧
      fileLookup sys1.files cfg.path =
        some { content := .tobj [], mtime := sys.clock + 1 }) ∧
    (∀ (sys : Sys) (parent : JsonConfig) (s : SubConfig) (sys1 : Sys)
        (parent1 : JsonConfig) (s1 : SubConfig) (snap : Dict),
      parent.opts < sys.heap.length →
      SubConfig.get_and_clear sys parent s = .ok (sys1, parent1, s1, snap) →
      snap = heapGet sys.heap s.opts ∧
      heapGet sys1.heap s1.opts = [] ∧
      alLookup (heapGet sys1.heap parent1.opts) s.name = some (.jref s1.opts) ∧
      fileContentAt sys1 parent.path s.name = some (.tobj [])) := by
  constructor
  · intro sys cfg sys1 cfg1 snap h
    unfold JsonConfig.get_and_clear at h
    simp only [heapAlloc] at h
    cases hw : JsonConfig.write { sys with heap := sys.heap ++ [[]] }
        { cfg with opts := sys.heap.length } with
    | error e => rw [hw] at h; exact absurd h (by simp)
    | ok p =>
        obtain ⟨sysw, cfgw⟩ := p
        rw [hw] at h
        simp only [Except.ok.injEq, Prod.mk.injEq] at h
        obtain ⟨hsys, hcfg, hsnap⟩ := h
        obtain ⟨ts, hser, hsysw, hcfgw⟩ := write_ok_inv _ _ _ _ hw
        rw [heapGet_append_self sys.heap []] at hser
        rw [serializeEntries_nil] at hser
        have hts : ts = [] := by
          have := hser.symm
          simpa using this
        subst hts
        subst hsysw; subst hcfgw
        refine ⟨hsnap.symm, ?_, ?_⟩
        · rw [← hsys, ← hcfg]
          exact heapGet_append_self sys.heap []
        · rw [← hsys]
          simp only [fileLookup, fileSet]
          exact alLookup_alSet_self _ _ _
  · intro sys parent s sys1 parent1 s1 snap hplt h
    unfold SubConfig.get_and_clear at h
    simp only [SubConfig.clear, heapAlloc] at h
    set H2 : Heap := heapSet (sys.heap ++ [[]]) parent.opts
      (alSet (heapGet (sys.heap ++ [[]]) parent.opts) s.name (.jref sys.heap.length))
      with hH2
    cases hw : JsonConfig.write { sys with heap := H2 } parent with
    | error e => rw [hw] at h; exact Except.noConfusion h
    | ok p =>
        obtain ⟨sysw, parentw⟩ := p
        rw [hw] at h
        simp only [Except.ok.injEq, Prod.mk.injEq] at h
        obtain ⟨hs, hp, hs1, hsnap⟩ := h
        obtain ⟨ts, hser, hsysw, hparentw⟩ := write_ok_inv _ _ _ _ hw
        subst hsysw; subst hparentw
        subst hs; subst hp; subst hs1
        dsimp only at hser ⊢
        have hLne : parent.opts ≠ sys.heap.length := Nat.ne_of_lt hplt
        have hgetL : heapGet H2 sys.heap.length = [] := by
          rw [hH2, heapGet_heapSet_ne _ _ _ _ (Ne.symm hLne)]
          exact heapGet_append_self _ []
        have hgetP : heapGet H2 parent.opts =
            alSet (heapGet (sys.heap ++ [[]]) parent.opts) s.name
              (.jref sys.heap.length) := by
          rw [hH2, heapGet_heapSet_self]
          rw [List.length_append]
          simp only [List.length_cons, List.length_nil]
          omega
        have hlook : alLookup (heapGet H2 parent.opts) s.name =
            some (.jref sys.heap.length) := by
          rw [hgetP]
          exact alLookup_alSet_self _ _ _
        refine ⟨hsnap.symm, hgetL, hlook, ?_⟩
        obtain ⟨t, hval, hts⟩ := serializeEntries_lookup _ _ _ _ hser _ _ hlook
        rw [serializeVal_ref] at hval
        rw [hgetL] at hval
        rw [serializeEntries_nil] at hval
        simp only [Option.map_some'] at hval
        unfold fileContentAt
        simp only [fileLookup, fileSet]
        rw [alLookup_alSet_self]
        show alLookup ts s.name = some (.tobj [])
        rw [hts, ← hval]

/-! ## Claim C9: delete on a missing key, and the bridge cleanup handlers -/

/-- C9: deleting an absent key from a Document or SubDocument raises KeyError
unless ignore is set, in which case nothing happens at all; consequently the
bridge's job-stopped/job-cancelled handler is a complete no-op when the job id
is already gone (idempotent second delivery), while the schedule-deleted
handler propagates the KeyError for an absent schedule id. -/
theorem delete_missingKey_and_bridge_idempotence :
    (∀ (sys : Sys) (cfg : JsonConfig) (key : String),
      alMem (heapGet sys.heap cfg.opts) key = false →
      JsonConfig.delete sys cfg key false = .error (.keyError key) ∧
      JsonConfig.delete sys cfg key true = .ok (sys, cfg)) ∧
    (∀ (sys : Sys) (parent : JsonConfig) (s : SubConfig) (key : String),
      alMem (heapGet sys.heap s.opts) key = false →
      SubConfig.delete sys parent s key false = .error (.keyError key) ∧
      SubConfig.delete sys parent s key true = .ok (sys, parent, s)) ∧
    (∀ (ws : WrapperState) (hd : JobHeader) (cfg : JsonConfig) (j : Nat),
      alLookup ws.job_db.db hd.guild_id = some cfg →
      alLookup (heapGet ws.sys.heap cfg.opts) "jobs" = some (.jref j) →
      alMem (heapGet ws.sys.heap j) (toString hd.id) = false →
      cfgJobDelete ws hd = .ok ws) ∧
    (∀ (ws : WrapperState) (hd : JobHeader) (cfg : JsonConfig) (j : Nat),
      alLookup ws.job_db.db hd.guild_id = some cfg →
      alLookup (heapGet ws.sys.heap cfg.opts) "cron" = some (.jref j) →
      alMem (heapGet ws.sys.heap j) (toString hd.id) = false →
      cfgSchedDelete ws hd = .error (.keyError (toString hd.id))) := by
  refine ⟨?_, ?_, ?_, ?_⟩
  · intro sys cfg key hmem
    constructor
    · simp [JsonConfig.delete, hmem]
    · simp [JsonConfig.delete, hmem]
  · intro sys parent s key hmem
    constructor
    · simp [SubConfig.delete, hmem]
    · simp [SubConfig.delete, hmem]
  · intro ws hd cfg j hdb hjobs hmem
    have hself : alSet ws.job_db.db hd.guild_id cfg = ws.job_db.db :=
      alSet_lookup_eq_self _ _ _ hdb
    simp [cfgJobDelete, JsonConfigDB.get_config, hdb, JsonConfig.sub, hjobs,
      SubConfig.delete, hmem, hself]
  · intro ws hd cfg j hdb hcron hmem
    simp [cfgSchedDelete, JsonConfigDB.get_config, hdb, JsonConfig.sub, hcron,
      SubConfig.delete, hmem]

/-! ## Claim C8: resumption runs at most once -/

/-- C8: whenever the ready-signal handler completes, the resumed flag is set,
and every later invocation returns the state unchanged: it submits no job and
creates no schedule, since the whole resumption body is skipped behind the
flag. -/
theorem onReady_resumption_at_most_once (ws ws' : WrapperState)
    (h : onReady ws = .ok ws') :
    ws'.jobs_resumed = true ∧ onReady ws' = .ok ws' := by
  unfold onReady at h
  by_cases hf : ws.jobs_resumed = true
  · rw [if_pos hf] at h
    simp only [Except.ok.injEq] at h
    subst h
    constructor
    · exact hf
    · unfold onReady
      rw [if_pos hf]
  · rw [if_neg hf] at h
    cases hc : rescheduleAllCron ws with
    | error e => rw [hc] at h; exact Except.noConfusion h
    | ok ws1 =>
        rw [hc] at h
        dsimp only at h
        cases hj : resumeJobs ws1 with
        | error e => rw [hj] at h; exact Except.noConfusion h
        | ok ws2 =>
            rw [hj] at h
            simp only [Except.ok.injEq] at h
            subst h
            constructor
            · rfl
            · unfold onReady
              rw [if_pos rfl]

/-! ## Claim C5: template keys are additive-only on load -/

theorem backfill_keeps (tmpl : List (String × JVal)) (d : Dict) (k : String)
    (h : alMem d k = true) :
    alMem (backfillEntries d tmpl).1 k = true ∧
    alLookup (backfillEntries d tmpl).1 k = alLookup d k := by
  induction tmpl generalizing d with
  | nil => exact ⟨h, rfl⟩
  | cons kv rest ih =>
      obtain ⟨k0, v0⟩ := kv
      by_cases hm : alMem d k0 = true
      · simp only [backfillEntries, hm, if_true]
        exact ih d h
      · have hm1 : alMem d k0 = false := by
          cases hq : alMem d k0 with
          | true => exact absurd hq hm
          | false => rfl
        have hne : k ≠ k0 := by
          intro hc; subst hc; rw [h] at hm1; exact Bool.noConfusion hm1
        simp only [backfillEntries, hm1, Bool.false_eq_true, if_false]
        have hmem2 : alMem (alSet d k0 v0) k = true := alMem_alSet _ _ _ _ h
        obtain ⟨ih1, ih2⟩ := ih (alSet d k0 v0) hmem2
        exact ⟨ih1, by rw [ih2, alLookup_alSet_ne _ _ _ _ hne]⟩

theorem backfill_covers_template (tmpl : List (String × JVal)) (d : Dict) (k : String)
    (h : alMem tmpl k = true) :
    alMem (backfillEntries d tmpl).1 k = true := by
  induction tmpl generalizing d with
  | nil => simp [alMem, alLookup] at h
  | cons kv rest ih =>
      obtain ⟨k0, v0⟩ := kv
      by_cases hk : k0 = k
      · subst hk
        by_cases hm : alMem d k0 = true
        · simp only [backfillEntries, hm, if_true]
          exact (backfill_keeps rest d k0 hm).1
        · simp only [Bool.not_eq_true] at hm
          simp only [backfillEntries, hm, Bool.false_eq_true, if_false]
          have hmem2 : alMem (alSet d k0 v0) k0 = true := by
            simp [alMem, alLookup_alSet_self]
          exact (backfill_keeps rest (alSet d k0 v0) k0 hmem2).1
      · have hrest : alMem rest k = true := by
          simpa [alMem, alLookup, hk] using h
        by_cases hm : alMem d k0 = true
        · simp only [backfillEntries, hm, if_true]
          exact ih d hrest
        · simp only [Bool.not_eq_true] at hm
          simp only [backfillEntries, hm, Bool.false_eq_true, if_false]
          exact ih (alSet d k0 v0) hrest

/-- C5: whenever load() succeeds on a document with a template and an existing
backing file holding an object, every key of the template (as the template
dict stands in the heap at backfill time) is present in the loaded opts, and
every key that came from the file keeps exactly the value deserialized from
the file; no pre-existing key is overwritten by a template default. -/
theorem load_template_additive
    (sys : Sys) (cfg : JsonConfig) (sys' : Sys) (cfg' : JsonConfig)
    (fe : FileEntry) (fentries : List (String × JTree)) (t : Nat)
    (hfile : fileLookup sys.files cfg.path = some fe)
    (hcontent : fe.content = .tobj fentries)
    (htmpl : cfg.template = some t)
    (h : JsonConfig.load sys cfg = .ok (sys', cfg')) :
    (∀ k, alMem (heapGet ((deserEntries sys.heap fentries).1 ++
        [(deserEntries sys.heap fentries).2]) t) k = true →
      alMem (heapGet sys'.heap cfg'.opts) k = true) ∧
    (∀ k, alMem (deserEntries sys.heap fentries).2 k = true →
      alLookup (heapGet sys'.heap cfg'.opts) k =
        alLookup (deserEntries sys.heap fentries).2 k) := by
  unfold JsonConfig.load at h
  rw [hfile] at h
  dsimp only at h
  rw [hcontent] at h
  dsimp only at h
  rcases hde : deserEntries sys.heap fentries with ⟨h1, loaded⟩
  rw [hde] at h
  dsimp only at h
  rw [htmpl] at h
  simp only [heapAlloc] at h
  rcases hbf : backfillEntries (heapGet (h1 ++ [loaded]) h1.length)
      (heapGet (h1 ++ [loaded]) t) with ⟨d1, added⟩
  rw [hbf] at h
  dsimp only at h
  have hload : heapGet (h1 ++ [loaded]) h1.length = loaded := heapGet_append_self _ _
  have hfinal : heapGet sys'.heap cfg'.opts = d1 := by
    have hlt : h1.length < (h1 ++ [loaded]).length := by
      rw [List.length_append]; simp
    cases added with
    | false =>
        simp only [Bool.false_eq_true, if_false, Except.ok.injEq, Prod.mk.injEq] at h
        obtain ⟨hs, hc⟩ := h
        subst hs; subst hc
        simp only
        exact heapGet_heapSet_self _ _ _ hlt
    | true =>
        simp only [if_true] at h
        obtain ⟨ts, hser, hsys, hcfg⟩ := write_ok_inv _ _ _ _ h
        subst hsys; subst hcfg
        simp only
        exact heapGet_heapSet_self _ _ _ hlt
  constructor
  · intro k hk
    rw [hfinal]
    dsimp only at hk
    have hx := backfill_covers_template (heapGet (h1 ++ [loaded]) t) loaded k hk
    rw [hload] at hbf
    rw [hbf] at hx
    simpa using hx
  · intro k hk
    rw [hfinal]
    dsimp only at hk ⊢
    have hx := backfill_keeps (heapGet (h1 ++ [loaded]) t) loaded k hk
    rw [hload] at hbf
    rw [hbf] at hx
    simpa using hx.2

/-! ## Claim C7: the last-schedule-id counter is a running maximum -/

/-- Reading the durable counter out of the process-wide document. -/
def lastScheduleId (ws : WrapperState) : Option JVal :=
  alLookup (heapGet ws.sys.heap ws.monkycfg.opts) "last_schedule_id"

/-- Mutating one key of one dict object leaves every other key of every dict
readable as before, whichever object was hit. -/
theorem alLookup_heapSet_set_other (H : Heap) (a m : Nat) (key k' : String) (v : JVal)
    (hk : k' ≠ key) :
    alLookup (heapGet (heapSet H a (alSet (heapGet H a) key v)) m) k' =
    alLookup (heapGet H m) k' := by
  by_cases hm : m = a
  · subst hm
    by_cases hlt : m < H.length
    · rw [heapGet_heapSet_self _ _ _ hlt]
      exact alLookup_alSet_ne _ _ _ _ hk
    · have hge := Nat.le_of_not_lt hlt
      rw [heapGet_ge_length _ _ (by rw [heapSet_length]; exact hge)]
      rw [heapGet_ge_length _ _ hge]
  · rw [heapGet_heapSet_ne _ _ _ _ hm]

theorem get_and_set_ok_inv (sys : Sys) (cfg : JsonConfig) (key : String)
    (f : JVal → Except CfgError JVal) (sys' : Sys) (cfg' : JsonConfig)
    (h : JsonConfig.get_and_set sys cfg key f = .ok (sys', cfg')) :
    ∃ v0 v1, alLookup (heapGet sys.heap cfg.opts) key = some v0 ∧ f v0 = .ok v1 ∧
      sys'.heap = heapSet sys.heap cfg.opts (alSet (heapGet sys.heap cfg.opts) key v1) ∧
      cfg'.opts = cfg.opts := by
  unfold JsonConfig.get_and_set at h
  cases hl : alLookup (heapGet sys.heap cfg.opts) key with
  | none => rw [hl] at h; exact Except.noConfusion h
  | some v0 =>
      rw [hl] at h
      dsimp only at h
      cases hf : f v0 with
      | error e => rw [hf] at h; exact Except.noConfusion h
      | ok v1 =>
          rw [hf] at h
          dsimp only at h
          obtain ⟨ts, hser, hsys, hcfg⟩ := write_ok_inv _ _ _ _ h
          subst hsys; subst hcfg
          exact ⟨v0, v1, rfl, hf, rfl, rfl⟩

/-- One schedule-created event: the durable counter moves to the max of its
old value and the created id, and every entity that had a config still has
one. -/
theorem cfgSchedCreate_counter (ws : WrapperState) (hd : JobHeader) (ws' : WrapperState)
    (cfg0 : JsonConfig)
    (hdb : alLookup ws.job_db.db hd.guild_id = some cfg0)
    (hkey : toString hd.id ≠ "last_schedule_id")
    (c0 : Int) (hc0 : lastScheduleId ws = some (.jnum c0))
    (h : cfgSchedCreate ws hd = .ok ws') :
    lastScheduleId ws' = some (.jnum (max c0 hd.id)) ∧
    (∀ cid, (alLookup ws.job_db.db cid).isSome = true →
      (alLookup ws'.job_db.db cid).isSome = true) := by
  unfold cfgSchedCreate at h
  simp only [JsonConfigDB.get_config, hdb] at h
  cases hsub : alLookup (heapGet ws.sys.heap cfg0.opts) "cron" with
  | none => simp only [JsonConfig.sub, hsub] at h; exact Except.noConfusion h
  | some w =>
      cases w with
      | jstr s0 => simp only [JsonConfig.sub, hsub] at h; exact Except.noConfusion h
      | jnum n0 => simp only [JsonConfig.sub, hsub] at h; exact Except.noConfusion h
      | jref cj =>
          simp only [JsonConfig.sub, hsub] at h
          simp only [JobHeader.as_dict, heapAlloc] at h
          cases hset : SubConfig.set
              { ws.sys with heap := ws.sys.heap ++
                  [[("id", JVal.jnum hd.id), ("guild_id", JVal.jstr hd.guild_id)]] }
              cfg0 { name := "cron", opts := cj, invalid := false }
              (toString hd.id) (.jref ws.sys.heap.length) with
          | error e => rw [hset] at h; exact Except.noConfusion h
          | ok p =>
              obtain ⟨sys3, cfg1, s1⟩ := p
              rw [hset] at h
              dsimp only at h
              cases hgas : JsonConfig.get_and_set sys3 ws.monkycfg "last_schedule_id"
                  (maxIdFn hd.id) with
              | error e => rw [hgas] at h; exact Except.noConfusion h
              | ok q =>
                  obtain ⟨sys4, monky1⟩ := q
                  rw [hgas] at h
                  dsimp only at h
                  simp only [Except.ok.injEq] at h
                  subst h
                  obtain ⟨ts3, hser3, hsys3, hcfg1, hs1⟩ :=
                    subSet_ok_inv _ _ _ _ _ _ _ _ hset
                  obtain ⟨v0, v1, hv0, hv1, hheap4, hopts1⟩ :=
                    get_and_set_ok_inv _ _ _ _ _ _ hgas
                  have hmlt : ws.monkycfg.opts < ws.sys.heap.length := by
                    unfold lastScheduleId at hc0
                    exact heapGet_lt_of_lookup_some _ _ _ _ hc0
                  have hpre : alLookup (heapGet sys3.heap ws.monkycfg.opts)
                      "last_schedule_id" = some (.jnum c0) := by
                    rw [hsys3]
                    dsimp only
                    rw [alLookup_heapSet_set_other _ _ _ _ _ _ (Ne.symm hkey)]
                    rw [heapGet_append_lt _ _ _ hmlt]
                    unfold lastScheduleId at hc0
                    exact hc0
                  rw [hpre] at hv0
                  have hv0c : v0 = .jnum c0 := (Option.some.inj hv0).symm
                  subst hv0c
                  unfold maxIdFn at hv1
                  have hv1c : v1 = .jnum (max c0 hd.id) := (Except.ok.inj hv1).symm
                  subst hv1c
                  constructor
                  · unfold lastScheduleId
                    dsimp only
                    rw [hopts1, hheap4]
                    rw [heapGet_heapSet_self]
                    · rw [alLookup_alSet_self]
                    · rw [hsys3]
                      dsimp only
                      rw [heapSet_length, List.length_append]
                      simp only [List.length_cons, List.length_nil]
                      omega
                  · intro cid hcid
                    exact alMem_alSet _ _ _ _ hcid

def foldMax (c0 : Int) (hds : List JobHeader) : Int :=
  hds.foldl (fun c hd => max c hd.id) c0

theorem le_foldMax (hds : List JobHeader) (c0 : Int) : c0 ≤ foldMax c0 hds := by
  induction hds generalizing c0 with
  | nil => exact le_refl c0
  | cons hd rest ih =>
      exact le_trans (le_max_left c0 hd.id) (ih (max c0 hd.id))

theorem schedCreateSeq_counter_aux (hds : List JobHeader) :
    ∀ (ws ws' : WrapperState) (c0 : Int),
    (∀ hd ∈ hds, toString hd.id ≠ "last_schedule_id") →
    (∀ hd ∈ hds, (alLookup ws.job_db.db hd.guild_id).isSome = true) →
    lastScheduleId ws = some (.jnum c0) →
    schedCreateSeq ws hds = .ok ws' →
    lastScheduleId ws' = some (.jnum (foldMax c0 hds)) := by
  induction hds with
  | nil =>
      intro ws ws' c0 _ _ hc0 h
      unfold schedCreateSeq at h
      simp only [Except.ok.injEq] at h
      subst h
      exact hc0
  | cons hd rest ih =>
      intro ws ws' c0 hkeys hdbs hc0 h
      unfold schedCreateSeq at h
      cases hstep : cfgSchedCreate ws hd with
      | error e => rw [hstep] at h; exact Except.noConfusion h
      | ok ws1 =>
          rw [hstep] at h
          dsimp only at h
          have hdb0 : (alLookup ws.job_db.db hd.guild_id).isSome = true :=
            hdbs hd (List.mem_cons_self _ _)
          obtain ⟨cfg0, hcfg0⟩ : ∃ cfg0, alLookup ws.job_db.db hd.guild_id = some cfg0 := by
            cases hq : alLookup ws.job_db.db hd.guild_id with
            | none => rw [hq] at hdb0; exact Bool.noConfusion hdb0
            | some c => exact ⟨c, rfl⟩
          obtain ⟨hcounter, hpres⟩ := cfgSchedCreate_counter ws hd ws1 cfg0 hcfg0
            (hkeys hd (List.mem_cons_self _ _)) c0 hc0 hstep
          exact ih ws1 ws' (max c0 hd.id)
            (fun hd2 hm => hkeys hd2 (List.mem_cons_of_mem _ hm))
            (fun hd2 hm => hpres _ (hdbs hd2 (List.mem_cons_of_mem _ hm)))
            hcounter h

/-- C7: over any completed sequence of schedule-created events whose guilds
have job configs, the durable last-schedule-id counter ends at the running
maximum of its initial value and every created id; it never decreases, and
the result is independent of the creation order.  In particular ids 3 then 1
leave the counter at 3. -/
theorem schedCreate_counter_monotone_max
    (ws : WrapperState) (hds : List JobHeader) (ws' : WrapperState) (c0 : Int)
    (hkeys : ∀ hd ∈ hds, toString hd.id ≠ "last_schedule_id")
    (hdbs : ∀ hd ∈ hds, (alLookup ws.job_db.db hd.guild_id).isSome = true)
    (hc0 : lastScheduleId ws = some (.jnum c0))
    (h : schedCreateSeq ws hds = .ok ws') :
    lastScheduleId ws' = some (.jnum (foldMax c0 hds)) ∧
    c0 ≤ foldMax c0 hds ∧
    (∀ hds2, List.Perm hds hds2 → foldMax c0 hds2 = foldMax c0 hds) := by
  refine ⟨schedCreateSeq_counter_aux hds ws ws' c0 hkeys hdbs hc0 h, le_foldMax hds c0, ?_⟩
  intro hds2 hp
  unfold foldMax
  exact (hp.foldl_eq' (fun x _ y _ z => sup_right_comm z x.id y.id) c0).symm

/-! ## Witnesses -/

def c6WSys : Sys :=
  { heap := [[("a", .jnum 1), ("b", .jnum 2)]], files := [], clock := 0 }

def c6WCfg : JsonConfig :=
  { path := "doc.json", template := none, check_date := false,
    last_readwrite_date := none, opts := 0 }

def c6WOut : Sys × JsonConfig × Dict :=
  match JsonConfig.get_and_clear c6WSys c6WCfg with
  | .ok out => out
  | .error _ => (c6WSys, c6WCfg, [])

def c6WSubSys : Sys :=
  { heap := [[("jobs", .jref 1)], [("5", .jnum 9)]], files := [], clock := 0 }

def c6WParent : JsonConfig :=
  { path := "j.json", template := none, check_date := false,
    last_readwrite_date := none, opts := 0 }

def c6WSub : SubConfig := { name := "jobs", opts := 1, invalid := false }

def c6WSubOut : Sys × JsonConfig × SubConfig × Dict :=
  match SubConfig.get_and_clear c6WSubSys c6WParent c6WSub with
  | .ok out => out
  | .error _ => (c6WSubSys, c6WParent, c6WSub, [])

/-- Witness for C6, once at a document holding a 1, b 2 and once at a
SubDocument view of jobs holding 5 maps to 9: each returns its pre-reset
snapshot and leaves the empty mapping in place and persisted. -/
theorem getAndClear_witness :
    JsonConfig.get_and_clear c6WSys c6WCfg = .ok (c6WOut.1, c6WOut.2.1, c6WOut.2.2) ∧
    c6WOut.2.2 = [("a", JVal.jnum 1), ("b", JVal.jnum 2)] ∧
    (c6WOut.2.2 = heapGet c6WSys.heap c6WCfg.opts ∧
     heapGet c6WOut.1.heap c6WOut.2.1.opts = [] ∧
     fileLookup c6WOut.1.files c6WCfg.path =
       some { content := .tobj [], mtime := c6WSys.clock + 1 }) ∧
    c6WParent.opts < c6WSubSys.heap.length ∧
    SubConfig.get_and_clear c6WSubSys c6WParent c6WSub =
      .ok (c6WSubOut.1, c6WSubOut.2.1, c6WSubOut.2.2.1, c6WSubOut.2.2.2) ∧
    c6WSubOut.2.2.2 = [("5", JVal.jnum 9)] ∧
    (c6WSubOut.2.2.2 = heapGet c6WSubSys.heap c6WSub.opts ∧
     heapGet c6WSubOut.1.heap c6WSubOut.2.2.1.opts = [] ∧
     alLookup (heapGet c6WSubOut.1.heap c6WSubOut.2.1.opts) c6WSub.name =
       some (.jref c6WSubOut.2.2.1.opts) ∧
     fileContentAt c6WSubOut.1 c6WParent.path c6WSub.name = some (.tobj [])) :=
  ⟨rfl, rfl,
   getAndClear_snapshot_and_persist_empty.1 c6WSys c6WCfg c6WOut.1 c6WOut.2.1 c6WOut.2.2 rfl,
   by decide, rfl, rfl,
   getAndClear_snapshot_and_persist_empty.2 c6WSubSys c6WParent c6WSub
     c6WSubOut.1 c6WSubOut.2.1 c6WSubOut.2.2.1 c6WSubOut.2.2.2 (by decide) rfl⟩

def c3WSys : Sys := { heap := [[("a", .jnum 1)]], files := [], clock := 0 }

def c3WCfg : JsonConfig :=
  { path := "t.json", template := none, check_date := true,
    last_readwrite_date := none, opts := 0 }

def c3WOut : Sys × JsonConfig :=
  match JsonConfig.write c3WSys c3WCfg with
  | .ok out => out
  | .error _ => (c3WSys, c3WCfg)

/-- Witness for C3: a check-date document writes once, writes again, and an
external touch in between makes the second write fail without changing the
file content. -/
theorem write_checkDate_witness :
    c3WCfg.check_date = true ∧
    JsonConfig.write c3WSys c3WCfg = .ok (c3WOut.1, c3WOut.2) ∧
    ((JsonConfig.write c3WOut.1 c3WOut.2).isOk = true ∧
     JsonConfig.write (touchFile c3WOut.1 c3WCfg.path) c3WOut.2 =
       .error (.configException c3WCfg.path) ∧
     (fileLookup (touchFile c3WOut.1 c3WCfg.path).files c3WCfg.path).map FileEntry.content =
       (fileLookup c3WOut.1.files c3WCfg.path).map FileEntry.content) :=
  ⟨rfl, rfl,
   write_checkDate_concurrentModification c3WSys c3WCfg c3WOut.1 c3WOut.2 rfl rfl⟩

def c4WSys : Sys := { heap := [[("jobs", .jref 1)], []], files := [], clock := 0 }

def c4WCfg : JsonConfig :=
  { path := "g.json", template := none, check_date := false,
    last_readwrite_date := none, opts := 0 }

def c4WOut : Sys × JsonConfig × SubConfig :=
  match c4Run c4WSys c4WCfg with
  | .ok out => out
  | .error _ => (c4WSys, c4WCfg, { name := "", opts := 0, invalid := false })

/-- Witness for C4: the set, clear, set sequence on a concrete document ends
with the jobs mapping holding exactly the binding 2 to y. -/
theorem subClear_rebind_witness :
    c4Run c4WSys c4WCfg = .ok (c4WOut.1, c4WOut.2.1, c4WOut.2.2) ∧
    (heapGet c4WOut.1.heap c4WOut.2.2.opts = [("2", JVal.jstr "y")] ∧
     alLookup (heapGet c4WOut.1.heap c4WOut.2.1.opts) "jobs" =
       some (.jref c4WOut.2.2.opts)) :=
  ⟨rfl, subClear_rebind_sequence c4WSys c4WCfg _ _ _ rfl⟩

def c10WSys : Sys :=
  { heap := [[("k", .jref 1)], [("old", .jnum 7)]], files := [], clock := 0 }

def c10WCfg : JsonConfig :=
  { path := "w.json", template := none, check_date := false,
    last_readwrite_date := none, opts := 0 }

def c10WOut : Sys × JsonConfig × SubConfig × SubConfig :=
  match c10Run c10WSys c10WCfg "k" "a" (.jstr "v") with
  | .ok out => out
  | .error _ =>
      (c10WSys, c10WCfg, { name := "", opts := 0, invalid := false },
       { name := "", opts := 0, invalid := false })

/-- Witness for C10 on a concrete document: the stale sibling's write stays
in the detached dict and the persisted file keeps the empty object. -/
theorem siblingSub_witness :
    alLookup (heapGet c10WSys.heap c10WCfg.opts) "k" = some (.jref 1) ∧
    (1 : Nat) ≠ c10WCfg.opts ∧
    1 < c10WSys.heap.length ∧
    c10Run c10WSys c10WCfg "k" "a" (.jstr "v") =
      .ok (c10WOut.1, c10WOut.2.1, c10WOut.2.2.1, c10WOut.2.2.2) ∧
    (c10WOut.2.2.2.opts = 1 ∧
     heapGet c10WOut.1.heap 1 = alSet (heapGet c10WSys.heap 1) "a" (.jstr "v") ∧
     alLookup (heapGet c10WOut.1.heap c10WOut.2.1.opts) "k" =
       some (.jref c10WOut.2.2.1.opts) ∧
     c10WOut.2.2.1.opts ≠ 1 ∧
     heapGet c10WOut.1.heap c10WOut.2.2.1.opts = [] ∧
     fileContentAt c10WOut.1 c10WCfg.path "k" = some (.tobj [])) :=
  ⟨rfl, by decide, by decide, rfl,
   siblingSub_clear_detached_set c10WSys c10WCfg "k" "a" (.jstr "v") 1 _ _ _ _
     rfl (by decide) (by decide) rfl⟩

def c5WSys : Sys :=
  { heap := [[("x", .jnum 99), ("y", .jnum 2)]],
    files := [("d.json", { content := .tobj [("x", .tnum 1)], mtime := 0 })],
    clock := 0 }

def c5WCfg : JsonConfig :=
  { path := "d.json", template := some 0, check_date := false,
    last_readwrite_date := none, opts := 0 }

def c5WOut : Sys × JsonConfig :=
  match JsonConfig.load c5WSys c5WCfg with
  | .ok out => out
  | .error _ => (c5WSys, c5WCfg)

/-- Witness for C5: loading a file holding x 1 with template x 99, y 2
backfills y but keeps x at the loaded value 1, not the default 99. -/
theorem load_template_witness :
    fileLookup c5WSys.files c5WCfg.path =
      some { content := .tobj [("x", JTree.tnum 1)], mtime := 0 } ∧
    c5WCfg.template = some 0 ∧
    JsonConfig.load c5WSys c5WCfg = .ok (c5WOut.1, c5WOut.2) ∧
    alMem (heapGet c5WOut.1.heap c5WOut.2.opts) "y" = true ∧
    alLookup (heapGet c5WOut.1.heap c5WOut.2.opts) "x" =
      alLookup (deserEntries c5WSys.heap [("x", JTree.tnum 1)]).2 "x" ∧
    alLookup (heapGet c5WOut.1.heap c5WOut.2.opts) "x" = some (.jnum 1) :=
  have happ := load_template_additive c5WSys c5WCfg c5WOut.1 c5WOut.2
    { content := .tobj [("x", JTree.tnum 1)], mtime := 0 } [("x", JTree.tnum 1)] 0
    rfl rfl rfl rfl
  ⟨rfl, rfl, rfl, happ.1 "y" (by decide), happ.2 "x" (by decide), rfl⟩

def c8W : WrapperState :=
  { sys := { heap := [], files := [], clock := 0 },
    job_db := { path := "jobdb", template := none, unique_template := false, db := [] },
    monkycfg := { path := "m.json", template := none, check_date := false,
                  last_readwrite_date := none, opts := 0 },
    jobs_resumed := false, submitted := [], schedules := [] }

def c8WOut : WrapperState :=
  match onReady c8W with
  | .ok out => out
  | .error _ => c8W

/-- Witness for C8: a concrete ready signal completes, and the second
invocation is the identity. -/
theorem onReady_witness :
    onReady c8W = .ok c8WOut ∧
    (c8WOut.jobs_resumed = true ∧ onReady c8WOut = .ok c8WOut) :=
  ⟨rfl, onReady_resumption_at_most_once c8W c8WOut rfl⟩

def c7WGuildCfg : JsonConfig :=
  { path := "jobdb/g.json", template := none, check_date := false,
    last_readwrite_date := none, opts := 0 }

def c7WMonky : JsonConfig :=
  { path := "commoncfg/_monky.json", template := none, check_date := false,
    last_readwrite_date := none, opts := 3 }

def c7W : WrapperState :=
  { sys := { heap := [[("jobs", .jref 1), ("cron", .jref 2)], [], [],
               [("last_schedule_id", .jnum 0)]],
             files := [], clock := 0 },
    job_db := { path := "jobdb", template := none, unique_template := false,
                db := [("g", c7WGuildCfg)] },
    monkycfg := c7WMonky, jobs_resumed := true, submitted := [], schedules := [] }

def c7WHds : List JobHeader :=
  [{ id := 3, guild_id := "g" }, { id := 1, guild_id := "g" }]

def c7WOut : WrapperState :=
  match schedCreateSeq c7W c7WHds with
  | .ok out => out
  | .error _ => c7W

/-- Witness for C7: creating schedules with ids 3 then 1 leaves the counter
at 3, and the fold is order-independent. -/
theorem schedCreate_witness :
    lastScheduleId c7W = some (.jnum 0) ∧
    schedCreateSeq c7W c7WHds = .ok c7WOut ∧
    lastScheduleId c7WOut = some (.jnum 3) ∧
    (0 : Int) ≤ foldMax 0 c7WHds ∧
    foldMax 0 [{ id := 1, guild_id := "g" }, { id := 3, guild_id := "g" }] =
      foldMax 0 c7WHds :=
  have happ := schedCreate_counter_monotone_max c7W c7WHds c7WOut 0
    (by decide) (by decide) rfl rfl
  ⟨rfl, rfl, happ.1, happ.2.1,
   happ.2.2 [{ id := 1, guild_id := "g" }, { id := 3, guild_id := "g" }]
     (by unfold c7WHds; exact List.Perm.swap _ _ [])⟩

def c9WSys : Sys := { heap := [[("a", .jnum 1)]], files := [], clock := 0 }

def c9WCfg : JsonConfig :=
  { path := "p.json", template := none, check_date := false,
    last_readwrite_date := none, opts := 0 }

def c9WSys2 : Sys := { heap := [[("jobs", .jref 1)], []], files := [], clock := 0 }

def c9WParent : JsonConfig :=
  { path := "q.json", template := none, check_date := false,
    last_readwrite_date := none, opts := 0 }

def c9WSub : SubConfig := { name := "jobs", opts := 1, invalid := false }

def c9WGuildCfg : JsonConfig :=
  { path := "jobdb/g.json", template := none, check_date := false,
    last_readwrite_date := none, opts := 0 }

def c9WWs : WrapperState :=
  { sys := { heap := [[("jobs", .jref 1), ("cron", .jref 2)], [], []],
             files := [], clock := 0 },
    job_db := { path := "jobdb", template := none, unique_template := false,
                db := [("g", c9WGuildCfg)] },
    monkycfg := { path := "m.json", template := none, check_date := false,
                  last_readwrite_date := none, opts := 0 },
    jobs_resumed := true, submitted := [], schedules := [] }

def c9WHd : JobHeader := { id := 5, guild_id := "g" }

/-- Witness for C9 on concrete states: KeyError without ignore, untouched
state with ignore, a no-op second job-delete delivery, and a propagated
failure from schedule-delete. -/
theorem delete_missing_witness :
    alMem (heapGet c9WSys.heap c9WCfg.opts) "z" = false ∧
    JsonConfig.delete c9WSys c9WCfg "z" false = .error (.keyError "z") ∧
    JsonConfig.delete c9WSys c9WCfg "z" true = .ok (c9WSys, c9WCfg) ∧
    SubConfig.delete c9WSys2 c9WParent c9WSub "5" false = .error (.keyError "5") ∧
    SubConfig.delete c9WSys2 c9WParent c9WSub "5" true = .ok (c9WSys2, c9WParent, c9WSub) ∧
    cfgJobDelete c9WWs c9WHd = .ok c9WWs ∧
    cfgSchedDelete c9WWs c9WHd = .error (.keyError "5") :=
  have h := delete_missingKey_and_bridge_idempotence
  ⟨rfl,
   (h.1 c9WSys c9WCfg "z" rfl).1,
   (h.1 c9WSys c9WCfg "z" rfl).2,
   (h.2.1 c9WSys2 c9WParent c9WSub "5" rfl).1,
   (h.2.1 c9WSys2 c9WParent c9WSub "5" rfl).2,
   h.2.2.1 c9WWs c9WHd c9WGuildCfg 1 rfl rfl rfl,
   h.2.2.2 c9WWs c9WHd c9WGuildCfg 2 rfl rfl rfl⟩
